import Mathlib

/-!
Verification of the test-session core of the DTM quiz bot (`src/main.py`).

The embedding translates the session state machine of `DTMTestBot`:
`active_tests` (the session registry), `start_test`, `handle_answer`,
`show_question`, `finish_test`, `show_analysis` and the `cancel_test`
branch of `callback_handler`.  The Result Store (`save_test_result`) is
modelled as an append-only list.  Sessions and stored results carry a
ghost tag (drawn from a ghost counter `nextTag`) used only to state
trace properties such as "no result is ever persisted for a discarded
session"; the tag does not exist in the source and influences no
behaviour.  Timestamps are abstract naturals supplied with each action.
-/

namespace DTMBot

/-- A question row as drawn from the question store
(`get_random_questions`): the fields of a `questions` row that the core
reads. -/
structure Question where
  question_text : String
  option_a : String
  option_b : String
  option_c : String
  option_d : String
  correct_answer : String
deriving DecidableEq, Repr

/-- One per-question transcript entry, mirroring the dict appended to
`test_answers` in `finish_test` (main.py lines 241-250). -/
structure TAnswer where
  question : String
  user_answer : String
  correct_answer : String
  is_correct : Bool
  option_a : String
  option_b : String
  option_c : String
  option_d : String
deriving DecidableEq, Repr

/-- Python `str.lower()` restricted to the strings this program compares
(single ASCII letters or the empty string): per-character ASCII case
mapping. -/
def pyLower (s : String) : String :=
  String.mk (s.data.map Char.toLower)

/-- Python `str.upper()` on the same class of strings. -/
def pyUpper (s : String) : String :=
  String.mk (s.data.map Char.toUpper)

/-- Lookup in the `answers` dict (`answers.get(i, default)` without the
default), modelled as an association list from question index to
submitted letter. -/
def dictGet (m : List (Nat × String)) (k : Nat) : Option String :=
  (m.find? (fun p => p.1 == k)).map (fun p => p.2)

/-- Python dict assignment `answers[question_idx] = answer`: replace in
place when the key is present, append otherwise. -/
def dictInsert (m : List (Nat × String)) (k : Nat) (v : String) : List (Nat × String) :=
  if m.any (fun p => p.1 == k) then m.map (fun p => if p.1 == k then (k, v) else p)
  else m ++ [(k, v)]

/-- The keys of the answers dict. -/
def dictKeys (m : List (Nat × String)) : List Nat :=
  m.map Prod.fst

/-- A test session, mirroring the `test_session` dict built in
`start_test` (main.py lines 140-147) plus the two keys added by
`finish_test` (lines 270-271), absent while in progress. -/
structure TestSession where
  user_id : Nat
  subject : String
  questions : List Question
  current_question : Nat
  answers : List (Nat × String)
  start_time : Nat
  test_answers : Option (List TAnswer)
  test_result_id : Option Nat
deriving DecidableEq, Repr

/-- The session stored by `start_test` after a non-empty draw
(main.py lines 140-147). -/
def initSession (u : Nat) (subject : String) (qs : List Question) (now : Nat) : TestSession :=
  { user_id := u
    subject := subject
    questions := qs
    current_question := 0
    answers := []
    start_time := now
    test_answers := none
    test_result_id := none }

/-- One iteration of the scoring loop in `finish_test` (lines 234-250):
`user_answer = answers.get(i, '')`,
`is_correct = user_answer.lower() == question['correct_answer'].lower()`,
and the transcript dict with upper-cased letters and the option texts. -/
def gradeOne (answers : List (Nat × String)) (q : Question) (i : Nat) : TAnswer :=
  let user_answer := (dictGet answers i).getD ""
  let is_correct := pyLower user_answer == pyLower q.correct_answer
  { question := q.question_text
    user_answer := pyUpper user_answer
    correct_answer := pyUpper q.correct_answer
    is_correct := is_correct
    option_a := q.option_a
    option_b := q.option_b
    option_c := q.option_c
    option_d := q.option_d }

/-- The scoring loop `for i, question in enumerate(questions)` of
`finish_test`, producing the transcript entries in question order, the
enumeration starting at `i`. -/
def gradeEntries (answers : List (Nat × String)) : List Question → Nat → List TAnswer
  | [], _ => []
  | q :: rest, i => gradeOne answers q i :: gradeEntries answers rest (i + 1)

/-- `correct_count` accumulated by the loop: the number of transcript
entries with `is_correct` set. -/
def correctCount (answers : List (Nat × String)) (qs : List Question) : Nat :=
  (gradeEntries answers qs 0).countP (fun e => e.is_correct)

/-- Round to the nearest integer, ties to even, as Python's builtin
`round` does on the scaled value. -/
def roundHalfEven (x : ℚ) : ℤ :=
  let f : ℤ := Int.fdiv x.num (x.den : ℤ)
  let r : ℚ := x - (f : ℚ)
  if r < 1 / 2 then f
  else if 1 / 2 < r then f + 1
  else if f % 2 = 0 then f else f + 1

/-- Python's `round(x, 1)`: round to one decimal place, ties to even. -/
def pyRound1 (x : ℚ) : ℚ :=
  ((roundHalfEven (x * 10) : ℤ) : ℚ) / 10

/-- The summary computed by `finish_test` (lines 230-253):
`(correct_count, wrong_count, percentage)` with
`wrong_count = total_questions - correct_count` and
`percentage = round(correct_count / total_questions * 100, 1)`. -/
def finishSummary (s : TestSession) : Nat × Nat × ℚ :=
  (correctCount s.answers s.questions,
   s.questions.length - correctCount s.answers s.questions,
   pyRound1 ((correctCount s.answers s.questions : ℚ) / (s.questions.length : ℚ) * 100))

/-- The state update of `handle_answer` (main.py lines 205-209):
store the letter under the caller-supplied index and advance the
position to `question_idx + 1`. -/
def handleAnswerSession (s : TestSession) (answer : String) (question_idx : Nat) : TestSession :=
  { s with
    answers := dictInsert s.answers question_idx answer
    current_question := question_idx + 1 }

/-- What `show_question` presents for a session (main.py lines 166-194):
the question at the current position, or the hand-off to `finish_test`
when the position has run past the sequence (line 170). -/
inductive QuestionView where
  | question (q : Question)
  | readyToFinish
deriving DecidableEq, Repr

/-- `show_question`'s branch on the current position (lines 167-174). -/
def showQuestionView (s : TestSession) : QuestionView :=
  if h : s.questions.length ≤ s.current_question then QuestionView.readyToFinish
  else QuestionView.question (s.questions.get ⟨s.current_question, Nat.lt_of_not_le h⟩)

/-- One persisted `TestResult` row as passed to `save_test_result`
(main.py lines 259-267). -/
structure TestResult where
  user_id : Nat
  subject : String
  correct_answers : Nat
  total_questions : Nat
  percentage : ℚ
  duration : Nat
  test_answers : List TAnswer
deriving DecidableEq, Repr

/-- A registry entry: a session together with its ghost tag. -/
structure TaggedSession where
  tag : Nat
  s : TestSession
deriving DecidableEq, Repr

/-- A result-store row together with the ghost tag of the session whose
`finish_test` appended it. -/
structure SavedResult where
  tag : Nat
  result : TestResult
deriving DecidableEq, Repr

/-- The mutable state the core touches: the session registry
`self.active_tests`, the append-only result store, and the ghost tag
counter. -/
structure World where
  active_tests : Nat → Option TaggedSession
  results : List SavedResult
  nextTag : Nat

/-- The state at process start: empty registry, empty result store. -/
def initWorld : World :=
  { active_tests := fun _ => none, results := [], nextTag := 0 }

/-- Point update of the registry. -/
def setReg (w : World) (u : Nat) (e : Option TaggedSession) : World :=
  { w with active_tests := fun v => if v = u then e else w.active_tests v }

/-- `start_test` (main.py lines 124-152): an empty draw only reports
"no questions available" and registers nothing; a non-empty draw stores
a fresh session under the user, silently replacing any existing one. -/
def startTestAct (w : World) (u : Nat) (subject : String) (questions : List Question)
    (now : Nat) : World :=
  if questions.isEmpty then w
  else
    { setReg w u (some ⟨w.nextTag, initSession u subject questions now⟩) with
      nextTag := w.nextTag + 1 }

/-- The `TestResult` row `finish_test` hands to `save_test_result`
(main.py lines 259-267). -/
def finishResult (u : Nat) (s : TestSession) (now : Nat) : TestResult :=
  { user_id := u
    subject := s.subject
    correct_answers := correctCount s.answers s.questions
    total_questions := s.questions.length
    percentage := pyRound1 ((correctCount s.answers s.questions : ℚ) /
      (s.questions.length : ℚ) * 100)
    duration := now - s.start_time
    test_answers := gradeEntries s.answers s.questions 0 }

/-- The session after `finish_test` stashed the transcript and the
returned row id on it (main.py lines 270-271). -/
def finishedSession (s : TestSession) (rid : Nat) : TestSession :=
  { s with
    test_answers := some (gradeEntries s.answers s.questions 0)
    test_result_id := some rid }

/-- `finish_test` (main.py lines 214-294): a no-op for a user with no
session; otherwise grade the fixed question sequence, append one
`TestResult` to the result store, and stash the transcript and the
returned row id on the session, which stays registered. -/
def finishTestAct (w : World) (u : Nat) (now : Nat) : World :=
  match w.active_tests u with
  | none => w
  | some e =>
    { setReg w u (some ⟨e.tag, finishedSession e.s w.results.length⟩) with
      results := w.results ++ [⟨e.tag, finishResult u e.s now⟩] }

/-- The `answer_` callback (main.py lines 430-434, 196-212): a no-op for
a user with no session; otherwise record the letter, advance the
position, and re-enter `show_question`, which hands over to
`finish_test` once the position has run past the sequence. -/
def answerAct (w : World) (u : Nat) (answer : String) (question_idx : Nat) (now : Nat) : World :=
  match w.active_tests u with
  | none => w
  | some e =>
    let s2 := handleAnswerSession e.s answer question_idx
    let w2 := setReg w u (some ⟨e.tag, s2⟩)
    if s2.questions.length ≤ s2.current_question then finishTestAct w2 u now else w2

/-- `show_analysis` (main.py lines 296-344): pop the user's session if
any and answer with its stored transcript (`session.get('test_answers')`,
absent while in progress). -/
def showAnalysisAct (w : World) (u : Nat) : World × Option (List TAnswer) :=
  match w.active_tests u with
  | none => (w, none)
  | some e => (setReg w u none, e.s.test_answers)

/-- The rendering of `show_analysis`'s reply: Python's
`if not test_answers` treats both an absent transcript and an empty one
as "no analysis available". -/
inductive AnalysisView where
  | transcript (ta : List TAnswer)
  | noAnalysis
deriving DecidableEq, Repr

/-- main.py lines 311-339. -/
def analysisResponse : Option (List TAnswer) → AnalysisView
  | none => AnalysisView.noAnalysis
  | some ta => if ta.isEmpty then AnalysisView.noAnalysis else AnalysisView.transcript ta

/-- The `cancel_test` callback (main.py lines 437-441): drop the user's
session if present; nothing is persisted. -/
def cancelAct (w : World) (u : Nat) : World :=
  match w.active_tests u with
  | none => w
  | some _ => setReg w u none

/-- One inbound user action routed by `callback_handler`. -/
inductive Step : World → World → Prop where
  | start (w : World) (u : Nat) (subject : String) (qs : List Question) (now : Nat) :
      Step w (startTestAct w u subject qs now)
  | answer (w : World) (u : Nat) (a : String) (i : Nat) (now : Nat) :
      Step w (answerAct w u a i now)
  | analysis (w : World) (u : Nat) : Step w (showAnalysisAct w u).1
  | cancel (w : World) (u : Nat) : Step w (cancelAct w u)

/-- Any number of inbound actions. -/
def Reach : World → World → Prop :=
  Relation.ReflTransGen Step

/-- One inbound action that is not an answer submission by `u0`
(actions by other users are unrestricted). -/
inductive StepNA (u0 : Nat) : World → World → Prop where
  | start (w : World) (u : Nat) (subject : String) (qs : List Question) (now : Nat) :
      StepNA u0 w (startTestAct w u subject qs now)
  | answer (w : World) (u : Nat) (a : String) (i : Nat) (now : Nat) (h : u ≠ u0) :
      StepNA u0 w (answerAct w u a i now)
  | analysis (w : World) (u : Nat) : StepNA u0 w (showAnalysisAct w u).1
  | cancel (w : World) (u : Nat) : StepNA u0 w (cancelAct w u)

/-- Any number of inbound actions, none of them an answer submission by
`u0`. -/
def ReachNA (u0 : Nat) : World → World → Prop :=
  Relation.ReflTransGen (StepNA u0)

/-- The stored results carrying a given ghost tag, i.e. persisted on
behalf of the session so tagged. -/
def resultsFor (k : Nat) (rs : List SavedResult) : List SavedResult :=
  rs.filter (fun r => r.tag == k)

/-- Ghost-tag sanity of a world: registry tags are below the counter and
pairwise distinct, result tags are below the counter, and a session that
is still registered with no stored transcript has no persisted result. -/
structure GInv (w : World) : Prop where
  tagLt : ∀ u e, w.active_tests u = some e → e.tag < w.nextTag
  tagInj : ∀ u v e f, w.active_tests u = some e → w.active_tests v = some f →
    e.tag = f.tag → u = v
  resLt : ∀ r, r ∈ w.results → r.tag < w.nextTag
  resFin : ∀ r, r ∈ w.results → ∀ u e, w.active_tests u = some e → e.tag = r.tag →
    e.s.test_answers ≠ none

/-- The tag `k` is dead below the counter: no registered session carries
it, so no action can ever persist a result for it again. -/
def FreezeInv (k : Nat) (w : World) : Prop :=
  k < w.nextTag ∧ ∀ u e, w.active_tests u = some e → e.tag ≠ k

/-- From `w1` on, the results persisted on behalf of tag `k` never
change. -/
def ResultsFrozen (w1 : World) (k : Nat) : Prop :=
  ∀ w2, Reach w1 w2 → resultsFor k w2.results = resultsFor k w1.results

/-- From `w1` on, no result is ever persisted on behalf of tag `k`. -/
def NeverPersisted (w1 : World) (k : Nat) : Prop :=
  ∀ w2, Reach w1 w2 → resultsFor k w2.results = []

/-- From `w1` on, as long as user `u` submits no answer, the results
persisted on behalf of tag `k` never change. -/
def FrozenWithoutAnswer (u : Nat) (w1 : World) (k : Nat) : Prop :=
  ∀ w2, ReachNA u w1 w2 → resultsFor k w2.results = resultsFor k w1.results

/-- The number of distinct answered indices of a session. -/
def answeredCount (s : TestSession) : Nat :=
  (dictKeys s.answers).dedup.length

/-- Submitting a list of letters strictly in order, each under the
session's own current position — the "normal flow" of the interface,
where the callback index is the index of the question just shown.
(`finish_test`, reached when the position runs past the end, changes
neither `answers` nor `current_question`, so it is dropped here.) -/
def submitInOrder (s : TestSession) : List String → TestSession
  | [] => s
  | a :: rest => submitInOrder (handleAnswerSession s a s.current_question) rest

/-- The loop invariant behind the position/answer-count correspondence:
answer keys are distinct, all below the current position, and as many as
the position. -/
def AnsweredInv (s : TestSession) : Prop :=
  (dictKeys s.answers).Nodup ∧
  (∀ j ∈ dictKeys s.answers, j < s.current_question) ∧
  (dictKeys s.answers).length = s.current_question

/-- A concrete question used for witnesses and counterexamples. -/
def sampleQuestion : Question :=
  { question_text := "2+2?"
    option_a := "3"
    option_b := "4"
    option_c := "5"
    option_d := "6"
    correct_answer := "B" }

/-- A second concrete question. -/
def sampleQuestion2 : Question :=
  { question_text := "3+3?"
    option_a := "6"
    option_b := "7"
    option_c := "8"
    option_d := "9"
    correct_answer := "A" }


/-- A list of four questions whose index 3 has correct letter "B", used
by witnesses. -/
def fourQuestions : List Question :=
  [sampleQuestion2, sampleQuestion2, sampleQuestion2, sampleQuestion]

/-- The world after drawing three questions and replaying an answer
callback carrying the skipped-ahead index 1: the position becomes 2,
still short of the sequence length, so the session stays in progress
(`finish_test` never runs). -/
def cex4World : World :=
  answerAct (startTestAct initWorld 1 "math"
    [sampleQuestion, sampleQuestion2, sampleQuestion] 0) 1 "A" 1 0

/-- Only user `u` can hold a registered session tagged `k`. -/
def OnlyAt (u k : Nat) (w : World) : Prop :=
  ∀ v f, w.active_tests v = some f → f.tag = k → v = u

/-- A reachable world in which user 7 has an in-progress session. -/
def c5World : World := startTestAct initWorld 7 "physics" [sampleQuestion] 3

/-- A reachable world in which user 2 has finished a one-question test:
answering question 0 drives the position past the end and runs
`finish_test`. -/
def c7World : World := answerAct (startTestAct initWorld 2 "math" [sampleQuestion] 0) 2 "b" 0 4

/-- The completed session held by user 2 in `c7World`. -/
def c7Session : TestSession :=
  finishedSession (handleAnswerSession (initSession 2 "math" [sampleQuestion] 0) "b" 0) 0

/-- The transcript stored on `c7Session`. -/
def c7Transcript : List TAnswer := gradeEntries [(0, "b")] [sampleQuestion] 0

/-- A reachable world in which user 3 has an in-progress session. -/
def c10World : World := startTestAct initWorld 3 "math" [sampleQuestion] 0

/-- A reachable world in which user 5 has finished a one-question test. -/
def c8CompletedWorld : World :=
  answerAct (startTestAct initWorld 5 "math" [sampleQuestion] 0) 5 "A" 0 6

/-- The completed session held by user 5 in `c8CompletedWorld`. -/
def c8Session : TestSession :=
  finishedSession (handleAnswerSession (initSession 5 "math" [sampleQuestion] 0) "A" 0) 0

/-- `c8CompletedWorld` after the answer callback for question 0 is
replayed: the still-registered completed session runs through
`finish_test` again. -/
def c8ReplayWorld : World := answerAct c8CompletedWorld 5 "A" 0 9

end DTMBot

namespace DTMBot


theorem gradeEntries_length (a : List (Nat × String)) :
    ∀ (qs : List Question) (i : Nat), (gradeEntries a qs i).length = qs.length
  | [], _ => rfl
  | _ :: rest, i => by simp [gradeEntries, gradeEntries_length a rest (i + 1)]

theorem gradeEntries_get? (a : List (Nat × String)) :
    ∀ (qs : List Question) (i j : Nat),
      (gradeEntries a qs i).get? j = (qs.get? j).map (fun q => gradeOne a q (i + j))
  | [], _, _ => by simp [gradeEntries]
  | _ :: _, _, 0 => by simp [gradeEntries]
  | _ :: rest, i, j + 1 => by
    have ih := gradeEntries_get? a rest (i + 1) j
    simp only [gradeEntries, List.get?_cons_succ, ih]
    rw [show i + 1 + j = i + (j + 1) by omega]

theorem find?_map_update (k : Nat) (v : String) :
    ∀ (m : List (Nat × String)), m.any (fun p => p.1 == k) = true →
      (m.map (fun p => if p.1 == k then (k, v) else p)).find? (fun p => p.1 == k) =
        some (k, v)
  | [], h => by simp at h
  | p :: m, h => by
    by_cases hp : p.1 = k
    · simp [List.find?, hp]
    · have hb : (p.1 == k) = false := beq_eq_false_iff_ne.mpr hp
      have hm : m.any (fun p => p.1 == k) = true := by
        simpa [List.any_cons, hb] using h
      rw [List.map_cons, if_neg (by simp [hb]),
        List.find?_cons_of_neg _ (by simp [hb])]
      exact find?_map_update k v m hm

theorem find?_append_new (k : Nat) (v : String) :
    ∀ (m : List (Nat × String)), m.any (fun p => p.1 == k) = false →
      (m ++ [(k, v)]).find? (fun p => p.1 == k) = some (k, v)
  | [], _ => by simp [List.find?]
  | p :: m, h => by
    have hb : (p.1 == k) = false := by
      by_contra hc
      simp [List.any_cons, eq_true_of_ne_false hc] at h
    have hm : m.any (fun p => p.1 == k) = false := by
      simpa [List.any_cons, hb] using h
    rw [List.cons_append, List.find?_cons_of_neg _ (by simp [hb])]
    exact find?_append_new k v m hm

theorem dictGet_insert_self (m : List (Nat × String)) (k : Nat) (v : String) :
    dictGet (dictInsert m k v) k = some v := by
  unfold dictGet dictInsert
  by_cases h : m.any (fun p => p.1 == k) = true
  · rw [if_pos h, find?_map_update k v m h]
    rfl
  · rw [if_neg h, find?_append_new k v m (Bool.eq_false_iff.mpr h)]
    rfl

theorem showQuestionView_get? (s : TestSession) :
    showQuestionView s =
      (match s.questions.get? s.current_question with
        | some q => QuestionView.question q
        | none => QuestionView.readyToFinish) := by
  unfold showQuestionView
  split
  · next h => rw [List.get?_eq_none.mpr h]
  · next h => rw [List.get?_eq_get (Nat.lt_of_not_le h)]

end DTMBot

namespace DTMBot

theorem any_key_eq_false_of_lt (m : List (Nat × String)) (n : Nat)
    (h : ∀ j ∈ dictKeys m, j < n) : m.any (fun p => p.1 == n) = false := by
  rw [List.any_eq_false]
  intro p hp
  have hk : p.1 ∈ dictKeys m := List.mem_map_of_mem Prod.fst hp
  simpa using Nat.ne_of_lt (h p.1 hk)

theorem dictKeys_insert_of_lt (m : List (Nat × String)) (n : Nat) (v : String)
    (h : ∀ j ∈ dictKeys m, j < n) :
    dictKeys (dictInsert m n v) = dictKeys m ++ [n] := by
  unfold dictInsert
  rw [if_neg (by simp [any_key_eq_false_of_lt m n h]), dictKeys, List.map_append]
  rfl

theorem answeredInv_submit (s : TestSession) (a : String) (h : AnsweredInv s) :
    AnsweredInv (handleAnswerSession s a s.current_question) := by
  obtain ⟨hnd, hlt, hlen⟩ := h
  have hkeys : dictKeys (dictInsert s.answers s.current_question a) =
      dictKeys s.answers ++ [s.current_question] :=
    dictKeys_insert_of_lt s.answers s.current_question a hlt
  refine ⟨?_, ?_, ?_⟩
  · rw [handleAnswerSession]
    rw [hkeys, List.nodup_append]
    refine ⟨hnd, List.nodup_singleton _, ?_⟩
    intro j hj hj1
    have : j < s.current_question := hlt j hj
    simp at hj1
    omega
  · intro j hj
    rw [handleAnswerSession] at hj ⊢
    rw [hkeys] at hj
    rcases List.mem_append.mp hj with hj | hj
    · exact Nat.lt_succ_of_lt (hlt j hj)
    · simp at hj
      exact hj ▸ Nat.lt_succ_self s.current_question
  · rw [handleAnswerSession]
    rw [hkeys, List.length_append, hlen]
    rfl

theorem answeredInv_submitInOrder (letters : List String) :
    ∀ s : TestSession, AnsweredInv s → AnsweredInv (submitInOrder s letters) := by
  induction letters with
  | nil => intro s h; exact h
  | cons a rest ih =>
    intro s h
    exact ih _ (answeredInv_submit s a h)

end DTMBot

namespace DTMBot


/-- Claim C1: for each index of the drawn sequence, `finish_test`
computes `user_answer = answers.get(i, '')` and scores it correct
exactly when it equals the question's correct letter case-insensitively;
an unanswered index (whose correct letter is one of A-D) is scored
incorrect. -/
theorem finish_scoring_per_question (answers : List (Nat × String)) (qs : List Question)
    (i : Nat) (q : Question) (hq : qs.get? i = some q)
    (hca : q.correct_answer ∈ (["A", "B", "C", "D"] : List String)) :
    ∃ e, (gradeEntries answers qs 0).get? i = some e ∧
      e.user_answer = pyUpper ((dictGet answers i).getD "") ∧
      (e.is_correct = true ↔
        pyLower ((dictGet answers i).getD "") = pyLower q.correct_answer) ∧
      (dictGet answers i = none → e.is_correct = false) := by
  refine ⟨gradeOne answers q i, ?_, rfl, ?_, ?_⟩
  · rw [gradeEntries_get? answers qs 0 i, hq]
    simp
  · simp [gradeOne]
  · intro hnone
    simp only [gradeOne, hnone, Option.getD_none]
    simp only [List.mem_cons, List.mem_singleton, List.not_mem_nil, or_false] at hca
    rcases hca with h | h | h | h <;> rw [h] <;> decide

/-- Witness for C1: answering index 3 with lowercase "b" where the
correct letter is "B" is scored correct. -/
theorem finish_scoring_per_question_witness :
    fourQuestions.get? 3 = some sampleQuestion ∧
    sampleQuestion.correct_answer ∈ (["A", "B", "C", "D"] : List String) ∧
    ∃ e, (gradeEntries [(3, "b")] fourQuestions 0).get? 3 = some e ∧
      e.is_correct = true := by
  refine ⟨by decide, by decide, ?_⟩
  obtain ⟨e, he, _, hiff, _⟩ :=
    finish_scoring_per_question [(3, "b")] fourQuestions 3 sampleQuestion (by decide) (by decide)
  exact ⟨e, he, hiff.mpr (by decide)⟩

/-- Claim C2: after `finish_test`, `correct_count + wrong_count` is the
number of questions, and the percentage equals
`round(100 * correct_count / total, 1)`. -/
theorem finish_summary_conservation (s : TestSession) (h : s.questions ≠ []) :
    (finishSummary s).1 + (finishSummary s).2.1 = s.questions.length ∧
    (finishSummary s).2.2 =
      pyRound1 (100 * ((finishSummary s).1 : ℚ) / (s.questions.length : ℚ)) := by
  have hle : correctCount s.answers s.questions ≤ s.questions.length := by
    calc (gradeEntries s.answers s.questions 0).countP (fun e => e.is_correct)
        ≤ (gradeEntries s.answers s.questions 0).length := List.countP_le_length _
      _ = s.questions.length := gradeEntries_length s.answers s.questions 0
  constructor
  · show correctCount s.answers s.questions +
      (s.questions.length - correctCount s.answers s.questions) = s.questions.length
    omega
  · show pyRound1 ((correctCount s.answers s.questions : ℚ) /
        (s.questions.length : ℚ) * 100) =
      pyRound1 (100 * (correctCount s.answers s.questions : ℚ) / (s.questions.length : ℚ))
    congr 1
    ring

/-- Witness for C2 on a one-question session. -/
theorem finish_summary_conservation_witness :
    (initSession 1 "math" [sampleQuestion] 0).questions ≠ [] ∧
    ((finishSummary (initSession 1 "math" [sampleQuestion] 0)).1 +
        (finishSummary (initSession 1 "math" [sampleQuestion] 0)).2.1 =
        (initSession 1 "math" [sampleQuestion] 0).questions.length ∧
      (finishSummary (initSession 1 "math" [sampleQuestion] 0)).2.2 =
        pyRound1 (100 * ((finishSummary (initSession 1 "math" [sampleQuestion] 0)).1 : ℚ) /
          ((initSession 1 "math" [sampleQuestion] 0).questions.length : ℚ))) :=
  ⟨by decide, finish_summary_conservation _ (by decide)⟩

/-- Claim C3: `handle_answer` stores the letter as-is under the
caller-supplied index, advances the position to `question_idx + 1`,
leaves the draw, subject, start time and user untouched, and then shows
the question at the new position, or hands over to `finish_test` when
the new position has reached the end of the sequence. -/
theorem submit_answer_effect (s : TestSession) (answer : String) (question_idx : Nat) :
    dictGet (handleAnswerSession s answer question_idx).answers question_idx = some answer ∧
    (handleAnswerSession s answer question_idx).current_question = question_idx + 1 ∧
    (handleAnswerSession s answer question_idx).questions = s.questions ∧
    (handleAnswerSession s answer question_idx).subject = s.subject ∧
    (handleAnswerSession s answer question_idx).start_time = s.start_time ∧
    (handleAnswerSession s answer question_idx).user_id = s.user_id ∧
    showQuestionView (handleAnswerSession s answer question_idx) =
      (match s.questions.get? (question_idx + 1) with
        | some q => QuestionView.question q
        | none => QuestionView.readyToFinish) := by
  refine ⟨dictGet_insert_self s.answers question_idx answer, rfl, rfl, rfl, rfl, rfl, ?_⟩
  rw [showQuestionView_get?]
  rfl

/-- Amended claim C4: when every submission uses the session's own
current position as its index — the only indices the inline keyboard
produces in the normal flow — the position always equals the number of
distinct answered indices. -/
theorem position_counts_answers_in_order (u : Nat) (subject : String) (qs : List Question)
    (now : Nat) (letters : List String) :
    (submitInOrder (initSession u subject qs now) letters).current_question =
      answeredCount (submitInOrder (initSession u subject qs now) letters) := by
  have h0 : AnsweredInv (initSession u subject qs now) :=
    ⟨List.nodup_nil, by intro j hj; simp [initSession, dictKeys] at hj, rfl⟩
  obtain ⟨hnd, _, hlen⟩ := answeredInv_submitInOrder letters _ h0
  rw [answeredCount, List.dedup_eq_self.mpr hnd, hlen]

/-- Counterexample to C4 as stated: from a fresh three-question session,
a single answer action carrying the caller-supplied index 1 yields a
session that is still in progress (no transcript stored, `finish_test`
has not run) whose position is 2 but which has exactly one answered
index. -/
theorem position_counts_answers_counterexample :
    (cex4World.active_tests 1).map (fun e => e.s.test_answers) = some none ∧
    (cex4World.active_tests 1).map (fun e => e.s.current_question) = some 2 ∧
    (cex4World.active_tests 1).map (fun e => answeredCount e.s) = some 1 ∧
    (cex4World.active_tests 1).map (fun e => e.s.current_question) ≠
      (cex4World.active_tests 1).map (fun e => answeredCount e.s) := by
  refine ⟨?_, ?_, ?_, ?_⟩ <;> decide

end DTMBot

namespace DTMBot

theorem setReg_lookup (w : World) (u : Nat) (e : Option TaggedSession) (v : Nat) :
    (setReg w u e).active_tests v = if v = u then e else w.active_tests v := rfl

theorem setReg_lookup_self (w : World) (u : Nat) (e : Option TaggedSession) :
    (setReg w u e).active_tests u = e := by
  rw [setReg_lookup, if_pos rfl]

theorem setReg_lookup_other (w : World) (u : Nat) (e : Option TaggedSession) (v : Nat)
    (h : v ≠ u) : (setReg w u e).active_tests v = w.active_tests v := by
  rw [setReg_lookup, if_neg h]

theorem ginv_init : GInv initWorld := by
  constructor
  · intro u e h
    simp [initWorld] at h
  · intro u v e f h
    simp [initWorld] at h
  · intro r hr
    simp [initWorld] at hr
  · intro r hr
    simp [initWorld] at hr

theorem ginv_remove (w : World) (u : Nat) (hI : GInv w) : GInv (setReg w u none) := by
  constructor
  · intro v f hv
    by_cases hvu : v = u
    · rw [setReg_lookup, if_pos hvu] at hv
      exact absurd hv (by simp)
    · rw [setReg_lookup_other w u none v hvu] at hv
      exact hI.tagLt v f hv
  · intro v v2 f f2 hv hv2 htag
    by_cases hvu : v = u
    · rw [setReg_lookup, if_pos hvu] at hv
      exact absurd hv (by simp)
    · by_cases hv2u : v2 = u
      · rw [setReg_lookup, if_pos hv2u] at hv2
        exact absurd hv2 (by simp)
      · rw [setReg_lookup_other w u none v hvu] at hv
        rw [setReg_lookup_other w u none v2 hv2u] at hv2
        exact hI.tagInj v v2 f f2 hv hv2 htag
  · intro r hr
    exact hI.resLt r hr
  · intro r hr v f hv htag
    by_cases hvu : v = u
    · rw [setReg_lookup, if_pos hvu] at hv
      exact absurd hv (by simp)
    · rw [setReg_lookup_other w u none v hvu] at hv
      exact hI.resFin r hr v f hv htag

theorem ginv_update_sametag (w : World) (u : Nat) (e : TaggedSession) (s2 : TestSession)
    (hI : GInv w) (h : w.active_tests u = some e)
    (hta : e.s.test_answers ≠ none → s2.test_answers ≠ none) :
    GInv (setReg w u (some ⟨e.tag, s2⟩)) := by
  constructor
  · intro v f hv
    by_cases hvu : v = u
    · rw [setReg_lookup, if_pos hvu, Option.some_inj] at hv
      rw [← hv]
      exact hI.tagLt u e h
    · rw [setReg_lookup_other _ _ _ v hvu] at hv
      exact hI.tagLt v f hv
  · intro v v2 f f2 hv hv2 htag
    by_cases hvu : v = u
    · by_cases hv2u : v2 = u
      · rw [hvu, hv2u]
      · rw [setReg_lookup, if_pos hvu, Option.some_inj] at hv
        rw [setReg_lookup_other _ _ _ v2 hv2u] at hv2
        rw [← hv] at htag
        exact absurd (hI.tagInj v2 u f2 e hv2 h htag.symm) hv2u
    · by_cases hv2u : v2 = u
      · rw [setReg_lookup, if_pos hv2u, Option.some_inj] at hv2
        rw [setReg_lookup_other _ _ _ v hvu] at hv
        rw [← hv2] at htag
        exact absurd (hI.tagInj v u f e hv h htag) hvu
      · rw [setReg_lookup_other _ _ _ v hvu] at hv
        rw [setReg_lookup_other _ _ _ v2 hv2u] at hv2
        exact hI.tagInj v v2 f f2 hv hv2 htag
  · intro r hr
    exact hI.resLt r hr
  · intro r hr v f hv htag
    by_cases hvu : v = u
    · rw [setReg_lookup, if_pos hvu, Option.some_inj] at hv
      rw [← hv] at htag ⊢
      exact hta (hI.resFin r hr u e h htag)
    · rw [setReg_lookup_other _ _ _ v hvu] at hv
      exact hI.resFin r hr v f hv htag

end DTMBot

namespace DTMBot

theorem startTestAct_empty (w : World) (u : Nat) (subject : String) (qs : List Question)
    (now : Nat) (h : qs.isEmpty = true) : startTestAct w u subject qs now = w := by
  simp [startTestAct, h]

theorem startTestAct_lookup (w : World) (u : Nat) (subject : String) (qs : List Question)
    (now : Nat) (v : Nat) (h : qs.isEmpty = false) :
    (startTestAct w u subject qs now).active_tests v =
      if v = u then some ⟨w.nextTag, initSession u subject qs now⟩
      else w.active_tests v := by
  simp [startTestAct, h, setReg]

theorem startTestAct_results (w : World) (u : Nat) (subject : String) (qs : List Question)
    (now : Nat) : (startTestAct w u subject qs now).results = w.results := by
  rcases hq : qs.isEmpty <;> simp [startTestAct, hq, setReg]

theorem startTestAct_nextTag (w : World) (u : Nat) (subject : String) (qs : List Question)
    (now : Nat) (h : qs.isEmpty = false) :
    (startTestAct w u subject qs now).nextTag = w.nextTag + 1 := by
  simp [startTestAct, h, setReg]

theorem finishTestAct_none (w : World) (u : Nat) (now : Nat)
    (hw : w.active_tests u = none) : finishTestAct w u now = w := by
  simp [finishTestAct, hw]

theorem finishTestAct_lookup (w : World) (u : Nat) (now : Nat) (e : TaggedSession)
    (hw : w.active_tests u = some e) (v : Nat) :
    (finishTestAct w u now).active_tests v =
      if v = u then some ⟨e.tag, finishedSession e.s w.results.length⟩
      else w.active_tests v := by
  simp [finishTestAct, hw, setReg]

theorem finishTestAct_results (w : World) (u : Nat) (now : Nat) (e : TaggedSession)
    (hw : w.active_tests u = some e) :
    (finishTestAct w u now).results = w.results ++ [⟨e.tag, finishResult u e.s now⟩] := by
  simp [finishTestAct, hw, setReg]

theorem finishTestAct_nextTag (w : World) (u : Nat) (now : Nat) :
    (finishTestAct w u now).nextTag = w.nextTag := by
  rcases hw : w.active_tests u <;> simp [finishTestAct, hw, setReg]

theorem answerAct_none (w : World) (u : Nat) (a : String) (i : Nat) (now : Nat)
    (hw : w.active_tests u = none) : answerAct w u a i now = w := by
  simp [answerAct, hw]

theorem answerAct_some (w : World) (u : Nat) (a : String) (i : Nat) (now : Nat)
    (e : TaggedSession) (hw : w.active_tests u = some e) :
    answerAct w u a i now =
      (if (handleAnswerSession e.s a i).questions.length ≤
          (handleAnswerSession e.s a i).current_question
        then finishTestAct (setReg w u (some ⟨e.tag, handleAnswerSession e.s a i⟩)) u now
        else setReg w u (some ⟨e.tag, handleAnswerSession e.s a i⟩)) := by
  simp [answerAct, hw]

theorem showAnalysisAct_none (w : World) (u : Nat) (hw : w.active_tests u = none) :
    showAnalysisAct w u = (w, none) := by
  simp [showAnalysisAct, hw]

theorem showAnalysisAct_some (w : World) (u : Nat) (e : TaggedSession)
    (hw : w.active_tests u = some e) :
    showAnalysisAct w u = (setReg w u none, e.s.test_answers) := by
  simp [showAnalysisAct, hw]

theorem cancelAct_none (w : World) (u : Nat) (hw : w.active_tests u = none) :
    cancelAct w u = w := by
  simp [cancelAct, hw]

theorem cancelAct_some (w : World) (u : Nat) (e : TaggedSession)
    (hw : w.active_tests u = some e) : cancelAct w u = setReg w u none := by
  simp [cancelAct, hw]

theorem ginv_start (w : World) (u : Nat) (subject : String) (qs : List Question) (now : Nat)
    (hI : GInv w) : GInv (startTestAct w u subject qs now) := by
  rcases hq : qs.isEmpty with _ | _
  case true => rw [startTestAct_empty w u subject qs now hq]; exact hI
  case false =>
  constructor
  · intro v f hv
    rw [startTestAct_lookup w u subject qs now v hq] at hv
    rw [startTestAct_nextTag w u subject qs now hq]
    by_cases hvu : v = u
    · rw [if_pos hvu, Option.some_inj] at hv
      rw [← hv]
      exact Nat.lt_succ_self _
    · rw [if_neg hvu] at hv
      exact Nat.lt_succ_of_lt (hI.tagLt v f hv)
  · intro v v2 f f2 hv hv2 htag
    rw [startTestAct_lookup w u subject qs now v hq] at hv
    rw [startTestAct_lookup w u subject qs now v2 hq] at hv2
    by_cases hvu : v = u
    · by_cases hv2u : v2 = u
      · rw [hvu, hv2u]
      · rw [if_pos hvu, Option.some_inj] at hv
        rw [if_neg hv2u] at hv2
        have h2 : f2.tag < w.nextTag := hI.tagLt v2 f2 hv2
        rw [← hv] at htag
        simp at htag
        omega
    · by_cases hv2u : v2 = u
      · rw [if_pos hv2u, Option.some_inj] at hv2
        rw [if_neg hvu] at hv
        have h2 : f.tag < w.nextTag := hI.tagLt v f hv
        rw [← hv2] at htag
        simp at htag
        omega
      · rw [if_neg hvu] at hv
        rw [if_neg hv2u] at hv2
        exact hI.tagInj v v2 f f2 hv hv2 htag
  · intro r hr
    rw [startTestAct_results w u subject qs now] at hr
    rw [startTestAct_nextTag w u subject qs now hq]
    exact Nat.lt_succ_of_lt (hI.resLt r hr)
  · intro r hr v f hv htag
    rw [startTestAct_results w u subject qs now] at hr
    rw [startTestAct_lookup w u subject qs now v hq] at hv
    by_cases hvu : v = u
    · rw [if_pos hvu, Option.some_inj] at hv
      have h2 : r.tag < w.nextTag := hI.resLt r hr
      rw [← hv] at htag
      simp at htag
      omega
    · rw [if_neg hvu] at hv
      exact hI.resFin r hr v f hv htag

theorem ginv_finish (w : World) (u : Nat) (now : Nat) (hI : GInv w) :
    GInv (finishTestAct w u now) := by
  rcases hw : w.active_tests u with _ | e
  · rw [finishTestAct_none w u now hw]; exact hI
  · have hI2 : GInv (setReg w u (some ⟨e.tag, finishedSession e.s w.results.length⟩)) :=
      ginv_update_sametag w u e _ hI hw (by intro h2; simp [finishedSession])
    constructor
    · intro v f hv
      rw [finishTestAct_lookup w u now e hw] at hv
      rw [finishTestAct_nextTag]
      exact hI2.tagLt v f (by rw [setReg_lookup]; exact hv)
    · intro v v2 f f2 hv hv2 htag
      rw [finishTestAct_lookup w u now e hw] at hv hv2
      exact hI2.tagInj v v2 f f2 (by rw [setReg_lookup]; exact hv)
        (by rw [setReg_lookup]; exact hv2) htag
    · intro r hr
      rw [finishTestAct_results w u now e hw] at hr
      rw [finishTestAct_nextTag]
      rcases List.mem_append.mp hr with hr | hr
      · exact hI.resLt r hr
      · simp at hr
        rw [hr]
        exact hI.tagLt u e hw
    · intro r hr v f hv htag
      rw [finishTestAct_results w u now e hw] at hr
      rw [finishTestAct_lookup w u now e hw] at hv
      by_cases hvu : v = u
      · rw [if_pos hvu, Option.some_inj] at hv
        rw [← hv]
        simp [finishedSession]
      · rw [if_neg hvu] at hv
        rcases List.mem_append.mp hr with hr | hr
        · exact hI.resFin r hr v f hv htag
        · simp at hr
          rw [hr] at htag
          exact absurd (hI.tagInj v u f e hv hw htag) hvu

theorem ginv_answer (w : World) (u : Nat) (a : String) (i : Nat) (now : Nat)
    (hI : GInv w) : GInv (answerAct w u a i now) := by
  rcases hw : w.active_tests u with _ | e
  · rw [answerAct_none w u a i now hw]; exact hI
  · rw [answerAct_some w u a i now e hw]
    have hI2 : GInv (setReg w u (some ⟨e.tag, handleAnswerSession e.s a i⟩)) :=
      ginv_update_sametag w u e _ hI hw (fun h2 => h2)
    split
    · exact ginv_finish _ u now hI2
    · exact hI2

theorem ginv_analysis (w : World) (u : Nat) (hI : GInv w) : GInv (showAnalysisAct w u).1 := by
  rcases hw : w.active_tests u with _ | e
  · rw [showAnalysisAct_none w u hw]; exact hI
  · rw [showAnalysisAct_some w u e hw]; exact ginv_remove w u hI

theorem ginv_cancel (w : World) (u : Nat) (hI : GInv w) : GInv (cancelAct w u) := by
  rcases hw : w.active_tests u with _ | e
  · rw [cancelAct_none w u hw]; exact hI
  · rw [cancelAct_some w u e hw]; exact ginv_remove w u hI

theorem ginv_step (w w2 : World) (hI : GInv w) (hs : Step w w2) : GInv w2 := by
  cases hs with
  | start u subject qs now => exact ginv_start w u subject qs now hI
  | answer u a i now => exact ginv_answer w u a i now hI
  | analysis u => exact ginv_analysis w u hI
  | cancel u => exact ginv_cancel w u hI

theorem ginv_reach (w : World) (h : Reach initWorld w) : GInv w := by
  induction h with
  | refl => exact ginv_init
  | tail _ hbc ih => exact ginv_step _ _ ih hbc

end DTMBot

namespace DTMBot


theorem freeze_remove (k : Nat) (w : World) (u : Nat) (hf : FreezeInv k w) :
    FreezeInv k (setReg w u none) := by
  refine ⟨hf.1, ?_⟩
  intro v f hv
  by_cases hvu : v = u
  · rw [setReg_lookup, if_pos hvu] at hv
    exact absurd hv (by simp)
  · rw [setReg_lookup_other w u none v hvu] at hv
    exact hf.2 v f hv

theorem freeze_start (k : Nat) (w : World) (u : Nat) (subject : String) (qs : List Question)
    (now : Nat) (hf : FreezeInv k w) : FreezeInv k (startTestAct w u subject qs now) := by
  rcases hq : qs.isEmpty with _ | _
  case true => rw [startTestAct_empty w u subject qs now hq]; exact hf
  case false =>
  constructor
  · rw [startTestAct_nextTag w u subject qs now hq]
    exact Nat.lt_succ_of_lt hf.1
  · intro v f hv
    rw [startTestAct_lookup w u subject qs now v hq] at hv
    by_cases hvu : v = u
    · rw [if_pos hvu, Option.some_inj] at hv
      rw [← hv]
      exact Nat.ne_of_gt hf.1
    · rw [if_neg hvu] at hv
      exact hf.2 v f hv

theorem freeze_finish (k : Nat) (w : World) (u : Nat) (now : Nat) (hf : FreezeInv k w) :
    FreezeInv k (finishTestAct w u now) ∧
      resultsFor k (finishTestAct w u now).results = resultsFor k w.results := by
  rcases hw : w.active_tests u with _ | e
  · rw [finishTestAct_none w u now hw]
    exact ⟨hf, rfl⟩
  · have htag : e.tag ≠ k := hf.2 u e hw
    refine ⟨⟨?_, ?_⟩, ?_⟩
    · rw [finishTestAct_nextTag]
      exact hf.1
    · intro v f hv
      rw [finishTestAct_lookup w u now e hw] at hv
      by_cases hvu : v = u
      · rw [if_pos hvu, Option.some_inj] at hv
        rw [← hv]
        exact htag
      · rw [if_neg hvu] at hv
        exact hf.2 v f hv
    · rw [finishTestAct_results w u now e hw, resultsFor, List.filter_append]
      simp [resultsFor, List.filter_cons, beq_eq_false_iff_ne.mpr htag]

theorem freeze_step (k : Nat) (w w2 : World) (hf : FreezeInv k w) (hs : Step w w2) :
    FreezeInv k w2 ∧ resultsFor k w2.results = resultsFor k w.results := by
  cases hs with
  | start u subject qs now =>
    exact ⟨freeze_start k w u subject qs now hf, by rw [startTestAct_results]⟩
  | answer u a i now =>
    rcases hw : w.active_tests u with _ | e
    · rw [answerAct_none w u a i now hw]
      exact ⟨hf, rfl⟩
    · rw [answerAct_some w u a i now e hw]
      have hf2 : FreezeInv k (setReg w u (some ⟨e.tag, handleAnswerSession e.s a i⟩)) := by
        refine ⟨hf.1, ?_⟩
        intro v f hv
        by_cases hvu : v = u
        · rw [setReg_lookup, if_pos hvu, Option.some_inj] at hv
          rw [← hv]
          exact hf.2 u e hw
        · rw [setReg_lookup_other _ _ _ v hvu] at hv
          exact hf.2 v f hv
      split
      · have h3 := freeze_finish k _ u now hf2
        exact ⟨h3.1, h3.2⟩
      · exact ⟨hf2, rfl⟩
  | analysis u =>
    rcases hw : w.active_tests u with _ | e
    · rw [showAnalysisAct_none w u hw]
      exact ⟨hf, rfl⟩
    · rw [showAnalysisAct_some w u e hw]
      exact ⟨freeze_remove k w u hf, rfl⟩
  | cancel u =>
    rcases hw : w.active_tests u with _ | e
    · rw [cancelAct_none w u hw]
      exact ⟨hf, rfl⟩
    · rw [cancelAct_some w u e hw]
      exact ⟨freeze_remove k w u hf, rfl⟩

theorem freeze_reach (k : Nat) (w w2 : World) (hf : FreezeInv k w) (h : Reach w w2) :
    FreezeInv k w2 ∧ resultsFor k w2.results = resultsFor k w.results := by
  induction h with
  | refl => exact ⟨hf, rfl⟩
  | tail _ hbc ih =>
    obtain ⟨hf2, heq⟩ := ih
    obtain ⟨hf3, heq2⟩ := freeze_step k _ _ hf2 hbc
    exact ⟨hf3, heq2.trans heq⟩

end DTMBot

namespace DTMBot

theorem stepNA_step (u0 : Nat) (w w2 : World) (hs : StepNA u0 w w2) : Step w w2 := by
  cases hs with
  | start u subject qs now => exact Step.start w u subject qs now
  | answer u a i now _ => exact Step.answer w u a i now
  | analysis u => exact Step.analysis w u
  | cancel u => exact Step.cancel w u

theorem na_step (u0 k : Nat) (w w2 : World) (hI : GInv w) (hk : k < w.nextTag)
    (ho : OnlyAt u0 k w) (hs : StepNA u0 w w2) :
    GInv w2 ∧ k < w2.nextTag ∧ OnlyAt u0 k w2 ∧
      resultsFor k w2.results = resultsFor k w.results := by
  have hI2 : GInv w2 := ginv_step w w2 hI (stepNA_step u0 w w2 hs)
  cases hs with
  | start u subject qs now =>
    rcases hq : qs.isEmpty with _ | _
    case true => rw [startTestAct_empty w u subject qs now hq]; exact ⟨hI, hk, ho, rfl⟩
    case false =>
    refine ⟨hI2, ?_, ?_, by rw [startTestAct_results]⟩
    · rw [startTestAct_nextTag w u subject qs now hq]
      exact Nat.lt_succ_of_lt hk
    · intro v f hv htag
      rw [startTestAct_lookup w u subject qs now v hq] at hv
      by_cases hvu : v = u
      · rw [if_pos hvu, Option.some_inj] at hv
        rw [← hv] at htag
        simp at htag
        omega
      · rw [if_neg hvu] at hv
        exact ho v f hv htag
  | answer u a i now hne =>
    rcases hw : w.active_tests u with _ | e
    · rw [answerAct_none w u a i now hw]
      exact ⟨hI, hk, ho, rfl⟩
    · have hek : e.tag ≠ k := fun hc => hne (ho u e hw hc)
      have hIup : GInv (setReg w u (some ⟨e.tag, handleAnswerSession e.s a i⟩)) :=
        ginv_update_sametag w u e _ hI hw (fun h2 => h2)
      rw [answerAct_some w u a i now e hw]
      have ho2 : OnlyAt u0 k (setReg w u (some ⟨e.tag, handleAnswerSession e.s a i⟩)) := by
        intro v f hv htag
        by_cases hvu : v = u
        · rw [setReg_lookup, if_pos hvu, Option.some_inj] at hv
          rw [← hv] at htag
          exact absurd htag hek
        · rw [setReg_lookup_other _ _ _ v hvu] at hv
          exact ho v f hv htag
      have hw2 : (setReg w u (some ⟨e.tag, handleAnswerSession e.s a i⟩)).active_tests u =
          some ⟨e.tag, handleAnswerSession e.s a i⟩ :=
        setReg_lookup_self w u _
      split
      · refine ⟨ginv_finish _ u now hIup, ?_, ?_, ?_⟩
        · rw [finishTestAct_nextTag]
          exact hk
        · intro v f hv htag
          rw [finishTestAct_lookup _ u now _ hw2] at hv
          by_cases hvu : v = u
          · rw [if_pos hvu, Option.some_inj] at hv
            rw [← hv] at htag
            exact absurd htag hek
          · rw [if_neg hvu] at hv
            rw [setReg_lookup_other _ _ _ v hvu] at hv
            exact ho v f hv htag
        · rw [finishTestAct_results _ u now _ hw2, resultsFor, List.filter_append]
          simp [resultsFor, setReg, List.filter_cons, beq_eq_false_iff_ne.mpr hek]
      · exact ⟨hIup, hk, ho2, rfl⟩
  | analysis u =>
    rcases hw : w.active_tests u with _ | e
    · rw [showAnalysisAct_none w u hw]
      exact ⟨hI, hk, ho, rfl⟩
    · rw [showAnalysisAct_some w u e hw]
      refine ⟨ginv_remove w u hI, hk, ?_, rfl⟩
      intro v f hv htag
      by_cases hvu : v = u
      · rw [setReg_lookup, if_pos hvu] at hv
        exact absurd hv (by simp)
      · rw [setReg_lookup_other _ _ _ v hvu] at hv
        exact ho v f hv htag
  | cancel u =>
    rcases hw : w.active_tests u with _ | e
    · rw [cancelAct_none w u hw]
      exact ⟨hI, hk, ho, rfl⟩
    · rw [cancelAct_some w u e hw]
      refine ⟨ginv_remove w u hI, hk, ?_, rfl⟩
      intro v f hv htag
      by_cases hvu : v = u
      · rw [setReg_lookup, if_pos hvu] at hv
        exact absurd hv (by simp)
      · rw [setReg_lookup_other _ _ _ v hvu] at hv
        exact ho v f hv htag

theorem na_reach (u0 k : Nat) (w w2 : World) (hI : GInv w) (hk : k < w.nextTag)
    (ho : OnlyAt u0 k w) (h : ReachNA u0 w w2) :
    resultsFor k w2.results = resultsFor k w.results := by
  have main : GInv w2 ∧ k < w2.nextTag ∧ OnlyAt u0 k w2 ∧
      resultsFor k w2.results = resultsFor k w.results := by
    induction h with
    | refl => exact ⟨hI, hk, ho, rfl⟩
    | tail _ hbc ih =>
      obtain ⟨hI3, hk3, ho3, heq⟩ := ih
      obtain ⟨hI4, hk4, ho4, heq2⟩ := na_step u0 k _ _ hI3 hk3 ho3 hbc
      exact ⟨hI4, hk4, ho4, heq2.trans heq⟩
  exact main.2.2.2

end DTMBot

namespace DTMBot









/-- Claim C5: the registry keeps at most one session per user (it maps a
user to an optional session), and `start_test` for a user who already
has one silently overwrites it: the user ends up with exactly the fresh
session, the action persists nothing, and no result is ever persisted on
behalf of the discarded session afterwards. -/
theorem create_replaces_session (w : World) (u : Nat) (e : TaggedSession) (subject : String)
    (qs : List Question) (now : Nat) (h0 : Reach initWorld w)
    (h1 : w.active_tests u = some e) (h2 : qs ≠ []) :
    (startTestAct w u subject qs now).active_tests u =
      some ⟨w.nextTag, initSession u subject qs now⟩ ∧
    (startTestAct w u subject qs now).results = w.results ∧
    ResultsFrozen (startTestAct w u subject qs now) e.tag := by
  have hI := ginv_reach w h0
  have hq : qs.isEmpty = false := by
    cases qs with
    | nil => exact absurd rfl h2
    | cons a l => rfl
  refine ⟨?_, startTestAct_results w u subject qs now, ?_⟩
  · rw [startTestAct_lookup w u subject qs now u hq, if_pos rfl]
  · have hklt : e.tag < w.nextTag := hI.tagLt u e h1
    have hf : FreezeInv e.tag (startTestAct w u subject qs now) := by
      constructor
      · rw [startTestAct_nextTag w u subject qs now hq]
        exact Nat.lt_succ_of_lt hklt
      · intro v f hv
        rw [startTestAct_lookup w u subject qs now v hq] at hv
        by_cases hvu : v = u
        · rw [if_pos hvu, Option.some_inj] at hv
          rw [← hv]
          simp only [TaggedSession.mk.injEq] at *
          omega
        · rw [if_neg hvu] at hv
          intro hc
          exact hvu (hI.tagInj v u f e hv h1 hc)
    intro w2 hreach
    exact (freeze_reach e.tag _ w2 hf hreach).2

/-- Witness for C5: user 7 restarts with a fresh subject. -/
theorem create_replaces_session_witness :
    c5World.active_tests 7 = some ⟨0, initSession 7 "physics" [sampleQuestion] 3⟩ ∧
    ([sampleQuestion2] : List Question) ≠ [] ∧
    ((startTestAct c5World 7 "chem" [sampleQuestion2] 9).active_tests 7 =
        some ⟨c5World.nextTag, initSession 7 "chem" [sampleQuestion2] 9⟩ ∧
      (startTestAct c5World 7 "chem" [sampleQuestion2] 9).results = c5World.results ∧
      ResultsFrozen (startTestAct c5World 7 "chem" [sampleQuestion2] 9) 0) :=
  ⟨rfl, by decide,
    create_replaces_session c5World 7 ⟨0, initSession 7 "physics" [sampleQuestion] 3⟩
      "chem" [sampleQuestion2] 9
      (Relation.ReflTransGen.single (Step.start initWorld 7 "physics" [sampleQuestion] 3))
      rfl (by decide)⟩

/-- Claim C6: `start_test` with an empty draw changes nothing: the world
is untouched and a user who had no session still has none. -/
theorem create_empty_draw_no_session (w : World) (u : Nat) (subject : String) (now : Nat)
    (h : w.active_tests u = none) :
    startTestAct w u subject [] now = w ∧
    (startTestAct w u subject [] now).active_tests u = none := by
  have he : startTestAct w u subject [] now = w := startTestAct_empty w u subject [] now rfl
  exact ⟨he, by rw [he]; exact h⟩

/-- Witness for C6 at the initial world. -/
theorem create_empty_draw_no_session_witness :
    initWorld.active_tests 4 = none ∧
    (startTestAct initWorld 4 "math" [] 0 = initWorld ∧
      (startTestAct initWorld 4 "math" [] 0).active_tests 4 = none) :=
  ⟨rfl, create_empty_draw_no_session initWorld 4 "math" 0 rfl⟩

/-- Claim C7: `show_analysis` is single-use: with a completed session
holding a (non-empty) stored transcript, the first call answers with the
transcript and pops the session, and a second call answers "no analysis
available" rather than the old transcript or an error. -/
theorem analysis_single_use (w : World) (u : Nat) (e : TaggedSession) (ta : List TAnswer)
    (h1 : w.active_tests u = some e) (h2 : e.s.test_answers = some ta) (h3 : ta ≠ []) :
    analysisResponse (showAnalysisAct w u).2 = AnalysisView.transcript ta ∧
    (showAnalysisAct w u).1.active_tests u = none ∧
    analysisResponse (showAnalysisAct (showAnalysisAct w u).1 u).2 =
      AnalysisView.noAnalysis := by
  rw [showAnalysisAct_some w u e h1]
  refine ⟨?_, setReg_lookup_self w u none, ?_⟩
  · rw [h2]
    cases ta with
    | nil => exact absurd rfl h3
    | cons x xs => rfl
  · rw [showAnalysisAct_none _ u (setReg_lookup_self w u none)]
    rfl

/-- Witness for C7 on a finished one-question test. -/
theorem analysis_single_use_witness :
    c7World.active_tests 2 = some ⟨0, c7Session⟩ ∧
    c7Session.test_answers = some c7Transcript ∧
    c7Transcript ≠ [] ∧
    (analysisResponse (showAnalysisAct c7World 2).2 = AnalysisView.transcript c7Transcript ∧
      (showAnalysisAct c7World 2).1.active_tests 2 = none ∧
      analysisResponse (showAnalysisAct (showAnalysisAct c7World 2).1 2).2 =
        AnalysisView.noAnalysis) :=
  ⟨by decide, by decide, by decide,
    analysis_single_use c7World 2 ⟨0, c7Session⟩ c7Transcript (by decide) (by decide)
      (by decide)⟩

/-- Claim C9: `cancel_test` leaves the user without a session and
persists nothing, and an answer callback arriving right after the
cancellation is a no-op: it changes no state and stores no answer. -/
theorem abandon_removes_and_answer_noop (w : World) (u : Nat) (a : String) (i : Nat)
    (now : Nat) :
    (cancelAct w u).active_tests u = none ∧
    (cancelAct w u).results = w.results ∧
    answerAct (cancelAct w u) u a i now = cancelAct w u := by
  have hnone : (cancelAct w u).active_tests u = none := by
    rcases hw : w.active_tests u with _ | e
    · rw [cancelAct_none w u hw]
      exact hw
    · rw [cancelAct_some w u e hw]
      exact setReg_lookup_self w u none
  have hres : (cancelAct w u).results = w.results := by
    rcases hw : w.active_tests u with _ | e
    · rw [cancelAct_none w u hw]
    · rw [cancelAct_some w u e hw]
      rfl
  exact ⟨hnone, hres, answerAct_none _ u a i now hnone⟩

/-- Claim C10: `show_analysis` for a user whose session is still in
progress (no stored transcript) silently discards the session: it
answers "no analysis available", pops the session, persists nothing, and
no result is ever persisted for the discarded session afterwards. -/
theorem analysis_inprogress_discard (w : World) (u : Nat) (e : TaggedSession)
    (h0 : Reach initWorld w) (h1 : w.active_tests u = some e)
    (h2 : e.s.test_answers = none) :
    analysisResponse (showAnalysisAct w u).2 = AnalysisView.noAnalysis ∧
    (showAnalysisAct w u).1.active_tests u = none ∧
    (showAnalysisAct w u).1.results = w.results ∧
    NeverPersisted (showAnalysisAct w u).1 e.tag := by
  have hI := ginv_reach w h0
  rw [showAnalysisAct_some w u e h1]
  refine ⟨by rw [h2]; rfl, setReg_lookup_self w u none, rfl, ?_⟩
  have hempty : resultsFor e.tag w.results = [] := by
    simp only [resultsFor]
    rw [List.filter_eq_nil_iff]
    intro r hr hc
    exact hI.resFin r hr u e h1 (beq_iff_eq.mp hc).symm h2
  have hf : FreezeInv e.tag (setReg w u none) := by
    constructor
    · exact hI.tagLt u e h1
    · intro v f hv
      by_cases hvu : v = u
      · rw [setReg_lookup, if_pos hvu] at hv
        exact absurd hv (by simp)
      · rw [setReg_lookup_other _ _ _ v hvu] at hv
        intro hc
        exact hvu (hI.tagInj v u f e hv h1 hc)
  intro w2 hreach
  rw [(freeze_reach e.tag _ w2 hf hreach).2]
  exact hempty

/-- Witness for C10: consuming the analysis of a just-started test. -/
theorem analysis_inprogress_discard_witness :
    c10World.active_tests 3 = some ⟨0, initSession 3 "math" [sampleQuestion] 0⟩ ∧
    (⟨0, initSession 3 "math" [sampleQuestion] 0⟩ : TaggedSession).s.test_answers = none ∧
    (analysisResponse (showAnalysisAct c10World 3).2 = AnalysisView.noAnalysis ∧
      (showAnalysisAct c10World 3).1.active_tests 3 = none ∧
      (showAnalysisAct c10World 3).1.results = c10World.results ∧
      NeverPersisted (showAnalysisAct c10World 3).1 0) :=
  ⟨rfl, rfl,
    analysis_inprogress_discard c10World 3 ⟨0, initSession 3 "math" [sampleQuestion] 0⟩
      (Relation.ReflTransGen.single (Step.start initWorld 3 "math" [sampleQuestion] 0))
      rfl rfl⟩

/-- Amended claim C8: once a session has completed, no sequence of
actions that contains no answer submission by its user — repeated reads,
`show_analysis`, cancellation, new tests, and arbitrary actions of other
users — ever appends another result on its behalf; a replayed answer
callback, however, can (see the counterexample). -/
theorem persist_once_without_replayed_answer (w : World) (u : Nat) (e : TaggedSession)
    (h0 : Reach initWorld w) (h1 : w.active_tests u = some e)
    (h2 : e.s.test_answers ≠ none) :
    FrozenWithoutAnswer u w e.tag := by
  have hI := ginv_reach w h0
  intro w2 hreach
  exact na_reach u e.tag w w2 hI (hI.tagLt u e h1)
    (fun v f hv hc => hI.tagInj v u f e hv h1 hc) hreach

/-- Witness for amended C8 on a finished one-question test. -/
theorem persist_once_without_replayed_answer_witness :
    c8CompletedWorld.active_tests 5 = some ⟨0, c8Session⟩ ∧
    c8Session.test_answers ≠ none ∧
    FrozenWithoutAnswer 5 c8CompletedWorld 0 :=
  ⟨by decide, by decide,
    persist_once_without_replayed_answer c8CompletedWorld 5 ⟨0, c8Session⟩
      (Relation.ReflTransGen.tail
        (Relation.ReflTransGen.single (Step.start initWorld 5 "math" [sampleQuestion] 0))
        (Step.answer (startTestAct initWorld 5 "math" [sampleQuestion] 0) 5 "A" 0 6))
      (by decide) (by decide)⟩

/-- Counterexample to C8 as stated: after user 5 finishes a
one-question test, the session is still registered, so replaying the
answer callback for question 0 drives `show_question` into
`finish_test` a second time and appends a second result for the same
session (both stored rows carry its ghost tag 0). -/
theorem double_persist_counterexample :
    c8ReplayWorld.results.length = 2 ∧
    c8ReplayWorld.results.map (fun r => r.tag) = [0, 0] := by
  constructor <;> decide

end DTMBot
